import Mathlib

/-
Verification of the streaming/retry/normalization core of the cli4ifx
chat-completion client (packages internal/llm/provider and
internal/llm/models). Each definition is a shallow embedding of the
corresponding Go function; source locations are given in doc comments.
-/

namespace Cli4ifx

/-- Embeds message.FinishReason as the closed enum the spec gives
(Stop, Length, ToolCalls, ContentFilter, Unknown). The zero value of the
Go string type is treated as unknown. -/
inductive FinishReason
  | stop
  | length
  | toolCalls
  | contentFilter
  | unknown
deriving DecidableEq, Repr

/-- Embeds infineonClient.finishReason (infineon.go lines 161 to 174):
maps the backend finish-reason string to the FinishReason enum, with every
unrecognized string going to unknown. -/
def finishReason (reason : String) : FinishReason :=
  match reason with
  | "stop" => FinishReason.stop
  | "length" => FinishReason.length
  | "tool_calls" => FinishReason.toolCalls
  | "content_filter" => FinishReason.contentFilter
  | _ => FinishReason.unknown

/-- Embeds message.ToolCall as used by the provider package: an id, a name
assembled during streaming, and the accumulated serialized input. -/
structure ToolCall where
  id : String
  name : String
  input : String
deriving DecidableEq, Repr

/-- Embeds provider.TokenUsage (provider.go lines 30 to 35). -/
structure TokenUsage where
  inputTokens : Int
  outputTokens : Int
  cacheCreationTokens : Int
  cacheReadTokens : Int
deriving DecidableEq, Repr

/-- Embeds provider.ProviderResponse (provider.go lines 37 to 42). -/
structure ProviderResponse where
  content : String
  toolCalls : List ToolCall
  usage : TokenUsage
  finishReason : FinishReason
deriving DecidableEq, Repr

/-- Embeds Go error values as the provider code observes them: a backend
API error with a status code and an optional already-parsed Retry-After
delay in milliseconds (the time.ParseDuration call on the header text is
external library behavior; none stands for an absent or unparsable
header), a wrapped error produced by fmt.Errorf with the percent-w verb,
or any other error carrying only a message. -/
inductive GoError
  | apiError (statusCode : Int) (retryAfterMs : Option Int)
  | wrapped (msg : String) (inner : GoError)
  | other (msg : String)
deriving DecidableEq, Repr

/-- Embeds provider.ProviderEvent (provider.go lines 44 to 52) flattened
into a tagged variant, one constructor per event type constant declared at
provider.go lines 17 to 28 that the infineon client can carry. -/
inductive ProviderEvent
  | contentStart
  | contentDelta (content : String)
  | thinkingDelta (thinking : String)
  | toolUseStart (tc : ToolCall)
  | toolUseDelta (tc : ToolCall)
  | toolUseStop (tc : ToolCall)
  | contentStop
  | complete (response : ProviderResponse)
  | error (e : GoError)
  | warning (content : String)
deriving DecidableEq, Repr

/-- Embeds the constant maxRetries = 8 (provider.go line 15). -/
def maxRetries : Nat := 8

/-- Embeds the errors.As unwrapping walk used at infineon.go lines 398
to 400: finds the innermost apiError through wrapping, if any, and yields
its status code and parsed Retry-After milliseconds. -/
def asAPIError : GoError → Option (Int × Option Int)
  | GoError.apiError s r => some (s, r)
  | GoError.wrapped _ inner => asAPIError inner
  | GoError.other _ => none

/-- Embeds infineonClient.shouldRetry (infineon.go lines 397 to 428).
Returns (retry, delayMillis, fatalError). The attempts parameter is the
zero-based attempt index supplied by the retry loops. The Retry-After
branch uses the already-parsed milliseconds value when present; falling
through to exponential backoff covers both the absent-header and the
parse-failure paths of the source. -/
def shouldRetry (attempts : Nat) (err : GoError) : Bool × Int × Option GoError :=
  match asAPIError err with
  | none => (false, 0, none)
  | some (status, retryAfterMs) =>
    if status = 429 then
      match retryAfterMs with
      | some ms => (true, ms, none)
      | none => (true, 1000 * 2 ^ attempts, none)
    else if 500 ≤ status ∧ status < 600 then
      if maxRetries - 1 ≤ attempts then
        (false, 0, some (GoError.wrapped "max retries reached" err))
      else
        (true, 1000 * 2 ^ attempts, none)
    else
      (false, 0, none)

/-- Outcome of the shared retry loop shape used by send (infineon.go
lines 199 to 219) and by the stream-open phase (infineon.go lines 253
to 285): either the successful value of some attempt, or the error the
Go code returns or emits. -/
inductive RetryOutcome (α : Type)
  | success (v : α)
  | failure (e : GoError)
deriving DecidableEq, Repr

/-- Embeds the body of the Go retry loop. The call function maps the
zero-based attempt index to the transport outcome of that attempt. The
fuel argument counts the remaining loop iterations after the current one;
when the retry controller says retry but the loop bound is reached, the
loop exits and the last error is returned, matching the post-loop error
check of the source. A fatal error from shouldRetry is returned as is,
and a no-retry decision returns the original error. -/
def retryLoopAux {α : Type} (call : Nat → Except GoError α) : Nat → Nat → RetryOutcome α
  | fuel, a =>
    match call a with
    | Except.ok v => RetryOutcome.success v
    | Except.error e =>
      match shouldRetry a e with
      | (_, _, some fe) => RetryOutcome.failure fe
      | (true, _, none) =>
        match fuel with
        | 0 => RetryOutcome.failure e
        | fuel' + 1 => retryLoopAux call fuel' (a + 1)
      | (false, _, none) => RetryOutcome.failure e

/-- The full retry loop: attempts run at indices 0 through maxRetries - 1,
so after the first attempt there are maxRetries - 1 possible retries. -/
def retryLoop {α : Type} (call : Nat → Except GoError α) : RetryOutcome α :=
  retryLoopAux call (maxRetries - 1) 0

/-- Embeds the Function field of a non-streaming backend tool call. -/
structure CompletionToolCallFunction where
  name : String
  arguments : String
deriving DecidableEq, Repr

/-- Embeds one tool call of a non-streaming backend completion message. -/
structure CompletionToolCall where
  id : String
  function : CompletionToolCallFunction
deriving DecidableEq, Repr

/-- Embeds the message of a completion choice: optional text content and
the tool-call list. -/
structure CompletionMessage where
  content : Option String
  toolCalls : List CompletionToolCall
deriving DecidableEq, Repr

/-- Embeds one choice of a non-streaming backend completion. -/
structure CompletionChoice where
  message : CompletionMessage
  finishReason : String
deriving DecidableEq, Repr

/-- Embeds the usage block of a non-streaming backend completion. -/
structure CompletionUsage where
  promptTokens : Int
  completionTokens : Int
deriving DecidableEq, Repr

/-- Embeds the non-streaming backend completion shape read by send. -/
structure Completion where
  choices : List CompletionChoice
  usage : CompletionUsage
deriving DecidableEq, Repr

/-- Embeds infineonClient.toolCalls (infineon.go lines 430 to 444):
returns the empty list when there are no choices or the first choice has
no tool calls, otherwise converts each backend tool call. -/
def toolCallsOf (c : Completion) : List ToolCall :=
  match c.choices with
  | [] => []
  | ch :: _ =>
    if ch.message.toolCalls.length = 0 then []
    else ch.message.toolCalls.map
      (fun call => ToolCall.mk call.id call.function.name call.function.arguments)

/-- Embeds infineonClient.usage (infineon.go lines 446 to 451): the cache
fields are never set and keep the Go zero value. -/
def usageOf (c : Completion) : TokenUsage :=
  TokenUsage.mk c.usage.promptTokens c.usage.completionTokens 0 0

/-- Embeds the response-assembly tail of infineonClient.send (infineon.go
lines 221 to 237): zero choices is a protocol error; absent message
content is normalized to the empty string. -/
def sendAssemble (c : Completion) : Except GoError ProviderResponse :=
  match c.choices with
  | [] => Except.error (GoError.other "no choices returned")
  | choice :: _ =>
    Except.ok (ProviderResponse.mk (choice.message.content.getD "")
      (toolCallsOf c) (usageOf c) (finishReason choice.finishReason))

/-- Embeds infineonClient.send (infineon.go lines 193 to 237): the retry
loop around the transport call followed by response assembly. The call
function abstracts the blocking create-completion transport capability. -/
def send (call : Nat → Except GoError Completion) : Except GoError ProviderResponse :=
  match retryLoop call with
  | RetryOutcome.failure e => Except.error e
  | RetryOutcome.success c => sendAssemble c

/-- Embeds one tool-call delta of a streamed chunk: a positional index,
an optional id, an optional name fragment and an optional arguments
fragment (the Function fields of the source flattened in). -/
structure ToolCallDelta where
  index : Int
  id : Option String
  name : Option String
  arguments : Option String
deriving DecidableEq, Repr

/-- Embeds the delta of a streamed chunk choice: optional text content
and a list of tool-call deltas. -/
structure ChunkDelta where
  content : Option String
  toolCalls : List ToolCallDelta
deriving DecidableEq, Repr

/-- Embeds one choice of a streamed chunk. -/
structure ChunkChoice where
  delta : ChunkDelta
  finishReason : String
deriving DecidableEq, Repr

/-- Embeds a streamed chunk. -/
structure Chunk where
  choices : List ChunkChoice
deriving DecidableEq, Repr

/-- The mutable state of the chunk-consumption loop of
infineonClient.stream (infineon.go lines 293 to 296): the content
accumulator, the in-progress tool-call list, the usage value (declared
and never updated by the loop) and the running finish reason. -/
structure StreamState where
  content : String
  toolCalls : List ToolCall
  usage : TokenUsage
  finishReason : FinishReason
deriving DecidableEq, Repr

/-- The zero values the stream loop variables start from. -/
def initState : StreamState :=
  StreamState.mk "" [] (TokenUsage.mk 0 0 0 0) FinishReason.unknown

/-- Embeds the new-tool-call branch of the stream loop (infineon.go
lines 329 to 343): when the delta index is negative or beyond the current
list and the delta carries an id, a stub with empty name is appended and
a ToolUseStart event carrying the stub is emitted. -/
def newCallPhase (tcs : List ToolCall) (d : ToolCallDelta) :
    List ToolCall × List ProviderEvent :=
  if d.index < 0 ∨ (tcs.length : Int) ≤ d.index then
    match d.id with
    | some i =>
      (tcs ++ [ToolCall.mk i "" ""], [ProviderEvent.toolUseStart (ToolCall.mk i "" "")])
    | none => (tcs, [])
  else (tcs, [])

/-- The zero value of message.ToolCall. -/
def defaultCall : ToolCall := ToolCall.mk "" "" ""

/-- The name-fragment assignment of infineon.go lines 347 to 349: a name
fragment overwrites the stored name in place (plain assignment in the
source, not an append). -/
def updateName (cur : ToolCall) : Option String → ToolCall
  | some n => ToolCall.mk cur.id n cur.input
  | none => cur

/-- The input accumulation of infineon.go line 352: the arguments
fragment is appended to the stored input. -/
def appendInput (cur : ToolCall) (a : String) : ToolCall :=
  ToolCall.mk cur.id cur.name (cur.input ++ a)

/-- The ToolUseDelta payload of infineon.go lines 353 to 360: the current
id and name of the call together with only the incremental arguments
fragment. -/
def deltaPayload (cur : ToolCall) (a : String) : ToolCall :=
  ToolCall.mk cur.id cur.name a

/-- Embeds the update branch of the stream loop (infineon.go lines 345
to 362), run after the new-call branch against the possibly-grown list:
a name fragment overwrites the stored name in place, an arguments
fragment is appended to the stored input and a ToolUseDelta carrying only
the incremental fragment (with the current id and name) is emitted. -/
def updatePhase (tcs : List ToolCall) (d : ToolCallDelta) :
    List ToolCall × List ProviderEvent :=
  if 0 ≤ d.index ∧ d.index < (tcs.length : Int) then
    match d.arguments with
    | some a =>
      (tcs.set d.index.toNat
        (appendInput (updateName (tcs.getD d.index.toNat defaultCall) d.name) a),
       [ProviderEvent.toolUseDelta
        (deltaPayload (updateName (tcs.getD d.index.toNat defaultCall) d.name) a)])
    | none => (tcs.set d.index.toNat (updateName (tcs.getD d.index.toNat defaultCall) d.name), [])
  else (tcs, [])

/-- One tool-call delta processed through both branches, in source
order. -/
def processToolCallDelta (tcs : List ToolCall) (d : ToolCallDelta) :
    List ToolCall × List ProviderEvent :=
  let r1 := newCallPhase tcs d
  let r2 := updatePhase r1.1 d
  (r2.1, r1.2 ++ r2.2)

/-- The inner range loop over the tool-call deltas of one chunk
(infineon.go lines 327 to 364). -/
def applyDeltas (tcs : List ToolCall) : List ToolCallDelta →
    List ToolCall × List ProviderEvent
  | [] => (tcs, [])
  | d :: rest =>
    let r1 := processToolCallDelta tcs d
    let r2 := applyDeltas r1.1 rest
    (r2.1, r1.2 ++ r2.2)

/-- One iteration of the chunk-consumption loop (infineon.go lines 311
to 368): a chunk with no choices is skipped; otherwise a content delta
is accumulated and emitted, the tool-call deltas are applied, and a
non-empty finish reason overwrites the running finish reason. -/
def processChunk (st : StreamState) (c : Chunk) :
    StreamState × List ProviderEvent :=
  match c.choices with
  | [] => (st, [])
  | choice :: _ =>
    let r1 : StreamState × List ProviderEvent :=
      match choice.delta.content with
      | some s =>
        (StreamState.mk (st.content ++ s) st.toolCalls st.usage st.finishReason,
         [ProviderEvent.contentDelta s])
      | none => (st, [])
    let r2 := applyDeltas r1.1.toolCalls choice.delta.toolCalls
    let st2 := StreamState.mk r1.1.content r2.1 r1.1.usage r1.1.finishReason
    let st3 :=
      if choice.finishReason ≠ "" then
        StreamState.mk st2.content st2.toolCalls st2.usage (finishReason choice.finishReason)
      else st2
    (st3, r1.2 ++ r2.2)

/-- The whole chunk-consumption loop over the chunks the transport
delivers before its terminal signal. -/
def runChunks (st : StreamState) : List Chunk → StreamState × List ProviderEvent
  | [] => (st, [])
  | c :: rest =>
    let r1 := processChunk st c
    let r2 := runChunks r1.1 rest
    (r2.1, r1.2 ++ r2.2)

/-- The terminal signal of the backend chunk stream: clean end of stream
(io.EOF) or a transport error. -/
inductive StreamEnd
  | eof
  | fail (e : GoError)
deriving DecidableEq, Repr

/-- Embeds the clean-termination epilogue of the stream loop (infineon.go
lines 371 to 391): one ToolUseStop per accumulated tool call in list
order, then ContentStop, then Complete carrying the aggregated
response. -/
def epilogue (st : StreamState) : List ProviderEvent :=
  st.toolCalls.map ProviderEvent.toolUseStop ++
    [ProviderEvent.contentStop,
     ProviderEvent.complete
       (ProviderResponse.mk st.content st.toolCalls st.usage st.finishReason)]

/-- The event suffix produced after a successful stream open: the chunk
events followed by the epilogue on clean end of stream, or by a single
Error event on a mid-stream transport error (infineon.go lines 298
to 309). -/
def streamBody (chunks : List Chunk) (t : StreamEnd) : List ProviderEvent :=
  let r := runChunks initState chunks
  match t with
  | StreamEnd.eof => r.2 ++ epilogue r.1
  | StreamEnd.fail e => r.2 ++ [ProviderEvent.error e]

/-- Embeds infineonClient.stream (infineon.go lines 239 to 395) as the
full ordered event sequence the goroutine sends before closing the
channel. The transport function maps the zero-based open-attempt index to
either an opened stream (its chunk list and terminal signal) or an open
error; open failures go through the same retry loop as send, and a
terminal failure yields a single Error event with no ContentStart. -/
def streamEvents (tr : Nat → Except GoError (List Chunk × StreamEnd)) :
    List ProviderEvent :=
  match retryLoop tr with
  | RetryOutcome.failure e => [ProviderEvent.error e]
  | RetryOutcome.success (chunks, t) =>
    ProviderEvent.contentStart :: streamBody chunks t

/-- The loop state after consuming a chunk list from the zero state. -/
def finalState (chunks : List Chunk) : StreamState :=
  (runChunks initState chunks).1

/-- The event sequence of a stream whose open succeeds at once and whose
transport ends cleanly after the given chunks. -/
def eofEvents (chunks : List Chunk) : List ProviderEvent :=
  streamEvents (fun _ => Except.ok (chunks, StreamEnd.eof))

/-- True exactly on the event types the chunk-consumption loop itself can
emit (content deltas and tool-use start and delta events). -/
def isChunkEvent : ProviderEvent → Bool
  | ProviderEvent.contentDelta _ => true
  | ProviderEvent.toolUseStart _ => true
  | ProviderEvent.toolUseDelta _ => true
  | _ => false

/-- Recognizes a Complete event. -/
def isComplete : ProviderEvent → Bool
  | ProviderEvent.complete _ => true
  | _ => false

/-- Recognizes an Error event. -/
def isError : ProviderEvent → Bool
  | ProviderEvent.error _ => true
  | _ => false

/-- Recognizes a ContentStart event. -/
def isStart : ProviderEvent → Bool
  | ProviderEvent.contentStart => true
  | _ => false

/-- The id carried by a ToolUseStart event, none on other events. -/
def startId : ProviderEvent → Option String
  | ProviderEvent.toolUseStart tc => some tc.id
  | _ => none

/-- The id carried by a ToolUseStop event, none on other events. -/
def stopId : ProviderEvent → Option String
  | ProviderEvent.toolUseStop tc => some tc.id
  | _ => none

/-- The tool call carried by a ToolUseStop event, none on other events. -/
def stopCall : ProviderEvent → Option ToolCall
  | ProviderEvent.toolUseStop tc => some tc
  | _ => none

/-- The incremental input fragment carried by a ToolUseDelta event, none
on other events. -/
def deltaInput : ProviderEvent → Option String
  | ProviderEvent.toolUseDelta tc => some tc.input
  | _ => none

/-- The usage carried by a Complete event, none on other events. -/
def completeUsage : ProviderEvent → Option TokenUsage
  | ProviderEvent.complete r => some r.usage
  | _ => none

/-- The tool-call list carried by a Complete event, none on other
events. -/
def completeToolCalls : ProviderEvent → Option (List ToolCall)
  | ProviderEvent.complete r => some r.toolCalls
  | _ => none

/-- A chunk holding exactly one tool-call delta and nothing else. -/
def deltaChunk (d : ToolCallDelta) : Chunk :=
  Chunk.mk [ChunkChoice.mk (ChunkDelta.mk none [d]) ""]

/-- A chunk opening tool call index 0 with the given id. -/
def startChunk (id : String) : Chunk :=
  deltaChunk (ToolCallDelta.mk 0 (some id) none none)

/-- A chunk carrying a name fragment and an arguments fragment for tool
call index 0. -/
def fragChunk (p : Option String × Option String) : Chunk :=
  deltaChunk (ToolCallDelta.mk 0 none p.1 p.2)

/-- A full single-call delta sequence: an opening chunk with the id,
then one chunk per fragment pair. -/
def chunksFor (id : String) (ds : List (Option String × Option String)) :
    List Chunk :=
  startChunk id :: ds.map fragChunk

/-- Concatenation of a list of strings in order, the reference value the
accumulated tool-call input is compared against. -/
def concatAll : List String → String
  | [] => ""
  | s :: rest => s ++ concatAll rest

/-- A transport whose open succeeds at once and whose stream ends cleanly
with no chunks; a concrete instantiation for witnesses. -/
def trEofEx : Nat → Except GoError (List Chunk × StreamEnd) :=
  fun _ => Except.ok ([], StreamEnd.eof)

/-- Modelled from the spec: the message package of this repository is not
under src/. The spec data model gives a role from the set User,
Assistant, Tool. -/
inductive Role
  | user
  | assistant
  | tool
deriving DecidableEq, Repr

/-- Modelled from the spec: a content part of a message is text, a
binary attachment, a tool call or a tool result. Only the part count is
inspected by the code under verification (cleanMessages reads
len of msg.Parts). -/
inductive ContentPart
  | text (s : String)
  | binary (s : String)
  | toolCallPart (tc : ToolCall)
  | toolResultPart (callId : String) (content : String)
deriving DecidableEq, Repr

/-- Modelled from the spec: a message is a role plus an ordered list of
content parts. -/
structure Message where
  role : Role
  parts : List ContentPart
deriving DecidableEq, Repr

/-- Embeds baseProvider.cleanMessages (provider.go lines 106 to 115):
drops every message whose part list is empty and keeps the rest in
order. -/
def cleanMessages (msgs : List Message) : List Message :=
  msgs.filter (fun m => m.parts.length != 0)

/-- Embeds baseProvider.SendMessages (provider.go lines 117 to 120): the
client send capability is applied to the cleaned message list. -/
def sendMessages {α : Type} (clientSend : List Message → α) (msgs : List Message) : α :=
  clientSend (cleanMessages msgs)

/-- Embeds baseProvider.StreamResponse (provider.go lines 126 to 129):
the client stream capability is applied to the cleaned message list. -/
def streamResponse {α : Type} (clientStream : List Message → α) (msgs : List Message) : α :=
  clientStream (cleanMessages msgs)

/-- Embeds the element type of the backend tool-call array built by the
assistant branch of convertMessages; the zero value of the Go struct has
every field empty. -/
structure BackendToolCall where
  id : String
  type : String
  name : String
  arguments : String
deriving DecidableEq, Repr

/-- Embeds the assistant tool-call loop of convertMessages (infineon.go
lines 97 to 118). The reser parameter models json.Unmarshal into a
string-keyed map followed by json.Marshal: some of the canonical
re-serialization when the input parses as a JSON object, none when
parsing fails. The source allocates the output slice at full length with
zero-valued elements and assigns by index, skipping an element on parse
failure, so a failed element stays zero-valued. -/
def convertToolCalls (reser : String → Option String) (calls : List ToolCall) :
    List BackendToolCall :=
  calls.enum.foldl
    (fun acc p =>
      match reser p.2.input with
      | none => acc
      | some args => acc.set p.1 (BackendToolCall.mk p.2.id "function" p.2.name args))
    (List.replicate calls.length (BackendToolCall.mk "" "" "" ""))

/-- Embeds tools.BaseTool as the provider code consumes it: a name, a
description and the outcome of the JSONSchema call, with none standing
for schema-extraction failure. -/
structure BaseTool where
  name : String
  description : String
  jsonSchema : Option String
deriving DecidableEq, Repr

/-- Embeds the element type of the backend tool list; the zero value of
the Go struct has every field empty. -/
structure BackendTool where
  type : String
  name : String
  description : String
  parameters : String
deriving DecidableEq, Repr

/-- Embeds infineonClient.convertTools (infineon.go lines 136 to 158):
an empty tool list maps to the empty result; otherwise the output slice
is allocated at full length with zero-valued elements and filled by
index, skipping a tool whose schema extraction fails, so that slot stays
zero-valued. -/
def convertTools (ts : List BaseTool) : List BackendTool :=
  if ts.length = 0 then []
  else ts.enum.foldl
    (fun acc p =>
      match p.2.jsonSchema with
      | none => acc
      | some schema => acc.set p.1 (BackendTool.mk "function" p.2.name p.2.description schema))
    (List.replicate ts.length (BackendTool.mk "" "" "" ""))

/-- A sample re-serialization oracle for concrete evaluations: it
succeeds (as the identity) only on the text objA, standing for a valid
JSON object, and fails on everything else, standing for malformed
input. -/
def reserEx : String → Option String :=
  fun s => if s = "objA" then some "objA" else none

/-- Embeds models.ProviderOpenAI (models.go line 26). -/
def ProviderOpenAI : String := "openai"

/-- Embeds models.ProviderInfineon (models.go line 27). -/
def ProviderInfineon : String := "infineon"

/-- Embeds models.ProviderMock (models.go line 29). -/
def ProviderMock : String := "__mock"

/-- The concrete client kind NewProvider constructs on success. -/
inductive ProviderChoice
  | openai
  | infineon
deriving DecidableEq, Repr

/-- The observable outcome of NewProvider: a constructed provider, an
error with its message (the Go code returns a nil Provider alongside),
or a panic with the panic message. -/
inductive NewProviderResult
  | ok (p : ProviderChoice)
  | err (msg : String)
  | panicked (msg : String)
deriving DecidableEq, Repr

/-- Embeds NewProvider (provider.go lines 83 to 104): dispatch on the
provider identifier. The functional options do not influence the
dispatch, so they are elided. The mock case executes a panic; every
identifier outside the three known constants falls through the switch to
the formatted unsupported-provider error. -/
def NewProvider (providerName : String) : NewProviderResult :=
  if providerName = ProviderOpenAI then NewProviderResult.ok ProviderChoice.openai
  else if providerName = ProviderInfineon then NewProviderResult.ok ProviderChoice.infineon
  else if providerName = ProviderMock then NewProviderResult.panicked "not implemented"
  else NewProviderResult.err ("provider not supported: " ++ providerName)

theorem runChunks_nil (st : StreamState) : runChunks st [] = (st, []) := rfl

theorem runChunks_cons (st : StreamState) (c : Chunk) (cs : List Chunk) :
    runChunks st (c :: cs) =
      ((runChunks (processChunk st c).1 cs).1,
       (processChunk st c).2 ++ (runChunks (processChunk st c).1 cs).2) := rfl

theorem applyDeltas_nil (tcs : List ToolCall) : applyDeltas tcs [] = (tcs, []) := rfl

theorem applyDeltas_cons (tcs : List ToolCall) (d : ToolCallDelta) (ds : List ToolCallDelta) :
    applyDeltas tcs (d :: ds) =
      ((applyDeltas (processToolCallDelta tcs d).1 ds).1,
       (processToolCallDelta tcs d).2 ++ (applyDeltas (processToolCallDelta tcs d).1 ds).2) := rfl

theorem updateName_id (cur : ToolCall) (o : Option String) :
    (updateName cur o).id = cur.id := by
  cases o <;> rfl

theorem map_set_eq_of_eq {α β : Type} (f : α → β) (dflt : α) :
    ∀ (l : List α) (j : Nat) (v : α), f v = f (l.getD j dflt) →
      (l.set j v).map f = l.map f := by
  intro l
  induction l with
  | nil => intro j v _; rfl
  | cons a l ih =>
    intro j v h
    cases j with
    | zero =>
      rw [List.getD_cons_zero] at h
      simp [List.set, h]
    | succ j =>
      rw [List.getD_cons_succ] at h
      simp only [List.set, List.map_cons]
      rw [ih j v h]

theorem newCallPhase_ids (tcs : List ToolCall) (d : ToolCallDelta) :
    ((newCallPhase tcs d).1).map ToolCall.id =
      tcs.map ToolCall.id ++ ((newCallPhase tcs d).2).filterMap startId := by
  unfold newCallPhase
  split
  · cases hd : d.id <;> simp [startId]
  · simp

theorem updatePhase_ids (tcs : List ToolCall) (d : ToolCallDelta) :
    ((updatePhase tcs d).1).map ToolCall.id = tcs.map ToolCall.id
    ∧ ((updatePhase tcs d).2).filterMap startId = [] := by
  unfold updatePhase
  split
  · cases ha : d.arguments
    · exact ⟨map_set_eq_of_eq ToolCall.id defaultCall tcs _ _ (updateName_id _ _), rfl⟩
    · refine ⟨map_set_eq_of_eq ToolCall.id defaultCall tcs _ _ ?_, rfl⟩
      show (appendInput (updateName _ d.name) _).id = _
      rw [appendInput, updateName_id]
  · exact ⟨rfl, rfl⟩

theorem processToolCallDelta_ids (tcs : List ToolCall) (d : ToolCallDelta) :
    ((processToolCallDelta tcs d).1).map ToolCall.id =
      tcs.map ToolCall.id ++ ((processToolCallDelta tcs d).2).filterMap startId := by
  show ((updatePhase (newCallPhase tcs d).1 d).1).map ToolCall.id =
    tcs.map ToolCall.id ++
      ((newCallPhase tcs d).2 ++ (updatePhase (newCallPhase tcs d).1 d).2).filterMap startId
  rw [List.filterMap_append, (updatePhase_ids _ _).2, List.append_nil,
    (updatePhase_ids _ _).1, newCallPhase_ids]

theorem applyDeltas_ids (ds : List ToolCallDelta) : ∀ tcs : List ToolCall,
    ((applyDeltas tcs ds).1).map ToolCall.id =
      tcs.map ToolCall.id ++ ((applyDeltas tcs ds).2).filterMap startId := by
  induction ds with
  | nil => intro tcs; simp [applyDeltas_nil]
  | cons d rest ih =>
    intro tcs
    rw [applyDeltas_cons]
    show ((applyDeltas (processToolCallDelta tcs d).1 rest).1).map ToolCall.id = _
    rw [ih, processToolCallDelta_ids, List.filterMap_append, List.append_assoc]

theorem newCallPhase_kind (tcs : List ToolCall) (d : ToolCallDelta) :
    ∀ e ∈ (newCallPhase tcs d).2, isChunkEvent e = true := by
  unfold newCallPhase
  split
  · cases hd : d.id <;> simp [isChunkEvent]
  · simp

theorem updatePhase_kind (tcs : List ToolCall) (d : ToolCallDelta) :
    ∀ e ∈ (updatePhase tcs d).2, isChunkEvent e = true := by
  unfold updatePhase
  split
  · cases ha : d.arguments <;> simp [isChunkEvent]
  · simp

theorem processToolCallDelta_kind (tcs : List ToolCall) (d : ToolCallDelta) :
    ∀ e ∈ (processToolCallDelta tcs d).2, isChunkEvent e = true := by
  intro e he
  show isChunkEvent e = true
  have : e ∈ (newCallPhase tcs d).2 ++ (updatePhase (newCallPhase tcs d).1 d).2 := he
  rcases List.mem_append.mp this with h | h
  · exact newCallPhase_kind tcs d e h
  · exact updatePhase_kind _ d e h

theorem applyDeltas_kind (ds : List ToolCallDelta) : ∀ (tcs : List ToolCall),
    ∀ e ∈ (applyDeltas tcs ds).2, isChunkEvent e = true := by
  induction ds with
  | nil => intro tcs e he; simp [applyDeltas_nil] at he
  | cons d rest ih =>
    intro tcs e he
    rw [applyDeltas_cons] at he
    rcases List.mem_append.mp he with h | h
    · exact processToolCallDelta_kind tcs d e h
    · exact ih _ e h

theorem processChunk_shape (st : StreamState) (c : Chunk) :
    ((processChunk st c).1).toolCalls.map ToolCall.id =
      st.toolCalls.map ToolCall.id ++ ((processChunk st c).2).filterMap startId
    ∧ (∀ e ∈ (processChunk st c).2, isChunkEvent e = true)
    ∧ ((processChunk st c).1).usage = st.usage := by
  obtain ⟨choices⟩ := c
  cases choices with
  | nil => exact ⟨by simp [processChunk], by simp [processChunk], rfl⟩
  | cons choice rest =>
    obtain ⟨⟨cd, tcds⟩, frs⟩ := choice
    cases cd with
    | none =>
      simp only [processChunk]
      split
      · refine ⟨?_, ?_, rfl⟩
        · simpa using applyDeltas_ids tcds st.toolCalls
        · simpa using applyDeltas_kind tcds st.toolCalls
      · refine ⟨?_, ?_, rfl⟩
        · simpa using applyDeltas_ids tcds st.toolCalls
        · simpa using applyDeltas_kind tcds st.toolCalls
    | some s =>
      simp only [processChunk]
      split
      · refine ⟨?_, ?_, rfl⟩
        · simpa [List.filterMap_cons, startId] using applyDeltas_ids tcds st.toolCalls
        · intro e he
          rcases List.mem_cons.mp he with h | h
          · rw [h]; rfl
          · exact applyDeltas_kind tcds st.toolCalls e h
      · refine ⟨?_, ?_, rfl⟩
        · simpa [List.filterMap_cons, startId] using applyDeltas_ids tcds st.toolCalls
        · intro e he
          rcases List.mem_cons.mp he with h | h
          · rw [h]; rfl
          · exact applyDeltas_kind tcds st.toolCalls e h

theorem runChunks_shape (cs : List Chunk) : ∀ st : StreamState,
    ((runChunks st cs).1).toolCalls.map ToolCall.id =
      st.toolCalls.map ToolCall.id ++ ((runChunks st cs).2).filterMap startId
    ∧ (∀ e ∈ (runChunks st cs).2, isChunkEvent e = true)
    ∧ ((runChunks st cs).1).usage = st.usage := by
  induction cs with
  | nil => intro st; exact ⟨by simp [runChunks_nil], by simp [runChunks_nil], rfl⟩
  | cons c rest ih =>
    intro st
    rw [runChunks_cons]
    refine ⟨?_, ?_, ?_⟩
    · show ((runChunks (processChunk st c).1 rest).1).toolCalls.map ToolCall.id = _
      rw [(ih _).1, (processChunk_shape st c).1, List.filterMap_append, List.append_assoc]
    · intro e he
      rcases List.mem_append.mp he with h | h
      · exact (processChunk_shape st c).2.1 e h
      · exact (ih _).2.1 e h
    · show ((runChunks (processChunk st c).1 rest).1).usage = st.usage
      rw [(ih _).2.2, (processChunk_shape st c).2.2]

theorem countP_eq_zero_of_kind {l : List ProviderEvent} {p : ProviderEvent → Bool}
    (hk : ∀ e ∈ l, isChunkEvent e = true)
    (hp : ∀ e, isChunkEvent e = true → p e = false) :
    l.countP p = 0 := by
  rw [List.countP_eq_zero]
  intro e he
  simp [hp e (hk e he)]

theorem filterMap_eq_nil_of_kind {β : Type} {l : List ProviderEvent} {f : ProviderEvent → Option β}
    (hk : ∀ e ∈ l, isChunkEvent e = true)
    (hf : ∀ e, isChunkEvent e = true → f e = none) :
    l.filterMap f = [] := by
  rw [List.filterMap_eq_nil_iff]
  intro e he
  exact hf e (hk e he)

theorem isComplete_chunkEvent : ∀ e, isChunkEvent e = true → isComplete e = false := by
  intro e he; cases e <;> simp_all [isChunkEvent, isComplete]

theorem isError_chunkEvent : ∀ e, isChunkEvent e = true → isError e = false := by
  intro e he; cases e <;> simp_all [isChunkEvent, isError]

theorem stopId_chunkEvent : ∀ e, isChunkEvent e = true → stopId e = none := by
  intro e he; cases e <;> simp_all [isChunkEvent, stopId]

theorem stopCall_chunkEvent : ∀ e, isChunkEvent e = true → stopCall e = none := by
  intro e he; cases e <;> simp_all [isChunkEvent, stopCall]

theorem completeUsage_chunkEvent : ∀ e, isChunkEvent e = true → completeUsage e = none := by
  intro e he; cases e <;> simp_all [isChunkEvent, completeUsage]

theorem completeToolCalls_chunkEvent : ∀ e, isChunkEvent e = true → completeToolCalls e = none := by
  intro e he; cases e <;> simp_all [isChunkEvent, completeToolCalls]

theorem filterMap_map_stop_eq_nil {β : Type} (f : ProviderEvent → Option β)
    (hf : ∀ tc, f (ProviderEvent.toolUseStop tc) = none) (l : List ToolCall) :
    (l.map ProviderEvent.toolUseStop).filterMap f = [] := by
  induction l with
  | nil => rfl
  | cons a l ih => simp [hf, ih]

theorem filterMap_stopId_map_stop (l : List ToolCall) :
    (l.map ProviderEvent.toolUseStop).filterMap stopId = l.map ToolCall.id := by
  induction l with
  | nil => rfl
  | cons a l ih => simp [stopId, ih]

theorem filterMap_stopCall_map_stop (l : List ToolCall) :
    (l.map ProviderEvent.toolUseStop).filterMap stopCall = l := by
  induction l with
  | nil => rfl
  | cons a l ih => simp [stopCall, ih]

theorem countP_map_stop_eq_zero (p : ProviderEvent → Bool)
    (hp : ∀ tc, p (ProviderEvent.toolUseStop tc) = false) (l : List ToolCall) :
    (l.map ProviderEvent.toolUseStop).countP p = 0 := by
  induction l with
  | nil => rfl
  | cons a l ih => simp [List.countP_cons, hp, ih]

theorem startChunk_step (id : String) :
    processChunk initState (startChunk id) =
      (StreamState.mk "" [ToolCall.mk id "" ""] (TokenUsage.mk 0 0 0 0) FinishReason.unknown,
       [ProviderEvent.toolUseStart (ToolCall.mk id "" "")]) := rfl

theorem fragChunk_step (cnt : String) (tc : ToolCall) (u : TokenUsage) (fr : FinishReason)
    (pn : Option String) (pa : Option String) :
    processChunk (StreamState.mk cnt [tc] u fr) (fragChunk (pn, pa)) =
      (StreamState.mk cnt
        [match pa with
         | some a => ToolCall.mk tc.id (pn.getD tc.name) (tc.input ++ a)
         | none => ToolCall.mk tc.id (pn.getD tc.name) tc.input] u fr,
       match pa with
       | some a => [ProviderEvent.toolUseDelta (ToolCall.mk tc.id (pn.getD tc.name) a)]
       | none => []) := by
  cases pn <;> cases pa <;> rfl

theorem runFrag_state (ds : List (Option String × Option String)) :
    ∀ (cnt : String) (tc : ToolCall) (u : TokenUsage) (fr : FinishReason),
    (runChunks (StreamState.mk cnt [tc] u fr) (ds.map fragChunk)).1 =
      StreamState.mk cnt
        [ToolCall.mk tc.id ((ds.filterMap Prod.fst).getLastD tc.name)
          (tc.input ++ concatAll (ds.filterMap Prod.snd))] u fr := by
  induction ds with
  | nil =>
    intro cnt tc u fr
    simp [runChunks_nil, concatAll, String.append_empty]
  | cons p rest ih =>
    intro cnt tc u fr
    obtain ⟨pn, pa⟩ := p
    rw [List.map_cons, runChunks_cons]
    show (runChunks (processChunk (StreamState.mk cnt [tc] u fr) (fragChunk (pn, pa))).1
      (rest.map fragChunk)).1 = _
    rw [fragChunk_step]
    cases pa with
    | none =>
      rw [ih]
      cases pn with
      | none => rfl
      | some n =>
        simp only [Option.getD_some, List.filterMap_cons, List.getLastD_cons]
    | some a =>
      rw [ih]
      cases pn with
      | none =>
        simp only [Option.getD_none, List.filterMap_cons, concatAll, String.append_assoc]
      | some n =>
        simp only [Option.getD_some, List.filterMap_cons, List.getLastD_cons, concatAll,
          String.append_assoc]

theorem runFrag_events (ds : List (Option String × Option String)) :
    ∀ (cnt : String) (tc : ToolCall) (u : TokenUsage) (fr : FinishReason),
    ((runChunks (StreamState.mk cnt [tc] u fr) (ds.map fragChunk)).2).filterMap deltaInput =
      ds.filterMap Prod.snd := by
  induction ds with
  | nil => intro cnt tc u fr; rfl
  | cons p rest ih =>
    intro cnt tc u fr
    obtain ⟨pn, pa⟩ := p
    rw [List.map_cons, runChunks_cons]
    show ((processChunk (StreamState.mk cnt [tc] u fr) (fragChunk (pn, pa))).2 ++
      (runChunks (processChunk (StreamState.mk cnt [tc] u fr) (fragChunk (pn, pa))).1
        (rest.map fragChunk)).2).filterMap deltaInput = _
    rw [fragChunk_step]
    cases pa with
    | none => simpa [List.filterMap_cons] using ih cnt _ u fr
    | some a => simpa [List.filterMap_cons, List.filterMap_append, deltaInput] using ih cnt _ u fr

theorem epilogue_countP_complete (st : StreamState) :
    (epilogue st).countP isComplete = 1 := by
  unfold epilogue
  rw [List.countP_append, countP_map_stop_eq_zero isComplete (fun _ => rfl)]
  rfl

theorem epilogue_countP_error (st : StreamState) :
    (epilogue st).countP isError = 0 := by
  unfold epilogue
  rw [List.countP_append, countP_map_stop_eq_zero isError (fun _ => rfl)]
  rfl

theorem streamBody_terminal_count (chunks : List Chunk) (t : StreamEnd) :
    (streamBody chunks t).countP isComplete + (streamBody chunks t).countP isError = 1 := by
  have hk := (runChunks_shape chunks initState).2.1
  have hc : ((runChunks initState chunks).2).countP isComplete = 0 :=
    countP_eq_zero_of_kind hk isComplete_chunkEvent
  have he : ((runChunks initState chunks).2).countP isError = 0 :=
    countP_eq_zero_of_kind hk isError_chunkEvent
  cases t with
  | eof =>
    show ((runChunks initState chunks).2 ++ epilogue (runChunks initState chunks).1).countP isComplete
      + ((runChunks initState chunks).2 ++ epilogue (runChunks initState chunks).1).countP isError = 1
    rw [List.countP_append, List.countP_append, hc, he,
      epilogue_countP_complete, epilogue_countP_error]
  | fail e =>
    show ((runChunks initState chunks).2 ++ [ProviderEvent.error e]).countP isComplete
      + ((runChunks initState chunks).2 ++ [ProviderEvent.error e]).countP isError = 1
    rw [List.countP_append, List.countP_append, hc, he]
    rfl

/-- Claim C3: every event sequence produced by stream that emits
ContentStart emits exactly one of Complete and Error (never both, never
neither) before the sequence is closed, and when opening the backend
stream fails fatally or non-retryably, a single Error event is emitted
and the sequence terminates with no ContentStart. -/
theorem stream_terminal_event_unique (tr : Nat → Except GoError (List Chunk × StreamEnd)) :
    (ProviderEvent.contentStart ∈ streamEvents tr →
      (streamEvents tr).countP isComplete + (streamEvents tr).countP isError = 1)
    ∧ (∀ e : GoError, retryLoop tr = RetryOutcome.failure e →
        streamEvents tr = [ProviderEvent.error e]
        ∧ ProviderEvent.contentStart ∉ streamEvents tr) := by
  constructor
  · intro _
    cases hr : retryLoop tr with
    | failure e => simp [streamEvents, hr, List.countP_cons, isComplete, isError]
    | success v =>
      obtain ⟨chunks, t⟩ := v
      have : streamEvents tr = ProviderEvent.contentStart :: streamBody chunks t := by
        simp [streamEvents, hr]
      rw [this, List.countP_cons, List.countP_cons]
      have h2 := streamBody_terminal_count chunks t
      simp only [isComplete, isError, Bool.false_eq_true, if_false]
      omega
  · intro e he
    refine ⟨by simp [streamEvents, he], by simp [streamEvents, he]⟩

theorem stream_terminal_event_unique_witness :
    (streamEvents trEofEx).countP isComplete + (streamEvents trEofEx).countP isError = 1 :=
  (stream_terminal_event_unique trEofEx).1 (by decide)

/-- Claim C8: on clean end of stream, exactly one ToolUseStop event is
emitted per started tool call, in the same relative order as the
corresponding ToolUseStart events (the sequence of stop ids equals the
sequence of start ids), followed by ContentStop and then Complete
carrying the accumulated content, the completed tool-call list and the
final finish reason. -/
theorem tool_stop_order (chunks : List Chunk) :
    (eofEvents chunks).filterMap stopId = (eofEvents chunks).filterMap startId
    ∧ eofEvents chunks =
        ProviderEvent.contentStart :: ((runChunks initState chunks).2 ++
          ((finalState chunks).toolCalls.map ProviderEvent.toolUseStop ++
            [ProviderEvent.contentStop,
             ProviderEvent.complete (ProviderResponse.mk (finalState chunks).content
               (finalState chunks).toolCalls (finalState chunks).usage
               (finalState chunks).finishReason)])) := by
  have hshape : eofEvents chunks =
      ProviderEvent.contentStart :: ((runChunks initState chunks).2 ++ epilogue (finalState chunks)) :=
    rfl
  have hk := (runChunks_shape chunks initState).2.1
  constructor
  · rw [hshape]
    rw [List.filterMap_cons, List.filterMap_cons]
    show ((runChunks initState chunks).2 ++ epilogue (finalState chunks)).filterMap stopId =
      ((runChunks initState chunks).2 ++ epilogue (finalState chunks)).filterMap startId
    rw [List.filterMap_append, List.filterMap_append]
    rw [filterMap_eq_nil_of_kind hk stopId_chunkEvent, List.nil_append]
    have hstart : (epilogue (finalState chunks)).filterMap startId = [] := by
      unfold epilogue
      rw [List.filterMap_append, filterMap_map_stop_eq_nil startId (fun _ => rfl)]
      rfl
    rw [hstart, List.append_nil]
    have hstop : (epilogue (finalState chunks)).filterMap stopId =
        (finalState chunks).toolCalls.map ToolCall.id := by
      unfold epilogue
      rw [List.filterMap_append, filterMap_stopId_map_stop]
      simp [stopId]
    rw [hstop]
    have hids := (runChunks_shape chunks initState).1
    rw [show initState.toolCalls = [] from rfl, List.map_nil, List.nil_append] at hids
    exact hids
  · exact hshape

/-- Claim C9: for every streaming invocation that runs to clean end of
stream, the TokenUsage carried by the Complete event has all four fields
equal to zero, whatever the input chunks, while the non-streaming usage
conversion reports the prompt and completion token counts of the
backend. -/
theorem stream_usage_zero (chunks : List Chunk) (c : Completion) :
    (eofEvents chunks).filterMap completeUsage = [TokenUsage.mk 0 0 0 0]
    ∧ usageOf c = TokenUsage.mk c.usage.promptTokens c.usage.completionTokens 0 0 := by
  refine ⟨?_, rfl⟩
  have hshape : eofEvents chunks =
      ProviderEvent.contentStart :: ((runChunks initState chunks).2 ++ epilogue (finalState chunks)) :=
    rfl
  rw [hshape, List.filterMap_cons]
  show ((runChunks initState chunks).2 ++ epilogue (finalState chunks)).filterMap completeUsage = _
  rw [List.filterMap_append,
    filterMap_eq_nil_of_kind (runChunks_shape chunks initState).2.1 completeUsage_chunkEvent,
    List.nil_append]
  have hu : (finalState chunks).usage = TokenUsage.mk 0 0 0 0 :=
    (runChunks_shape chunks initState).2.2
  unfold epilogue
  rw [List.filterMap_append, filterMap_map_stop_eq_nil completeUsage (fun _ => rfl)]
  simp [completeUsage, hu]

/-- Claim C1 counterexample: on the delta sequence that opens call index
0 with id c1 and then delivers the two name fragments foo and bar, the
final assembled name is bar (the last fragment), not the concatenation
foobar the claim predicts. -/
theorem tool_name_overwrite_counterexample :
    (finalState (chunksFor "c1" [(some "foo", none), (some "bar", none)])).toolCalls =
      [ToolCall.mk "c1" "bar" ""]
    ∧ ¬ ((finalState (chunksFor "c1" [(some "foo", none), (some "bar", none)])).toolCalls =
      [ToolCall.mk "c1" ("foo" ++ "bar") ""]) := by
  constructor
  · decide
  · decide

/-- Claim C1 as amended: for every streamed tool-call delta sequence
resolved to call index 0, the final assembled ToolCall carried by
ToolUseStop and by Complete has its input equal to the concatenation of
all argument fragments in arrival order and its name equal to the LAST
name fragment received (name fragments overwrite the name in place
rather than being appended), and each ToolUseDelta event carries only
the incremental arguments fragment of its chunk. -/
theorem tool_call_accumulation (id : String) (ds : List (Option String × Option String)) :
    (eofEvents (chunksFor id ds)).filterMap completeToolCalls =
      [[ToolCall.mk id ((ds.filterMap Prod.fst).getLastD "")
        (concatAll (ds.filterMap Prod.snd))]]
    ∧ (eofEvents (chunksFor id ds)).filterMap stopCall =
      [ToolCall.mk id ((ds.filterMap Prod.fst).getLastD "")
        (concatAll (ds.filterMap Prod.snd))]
    ∧ (eofEvents (chunksFor id ds)).filterMap deltaInput = ds.filterMap Prod.snd := by
  have hstate : finalState (chunksFor id ds) =
      StreamState.mk "" [ToolCall.mk id ((ds.filterMap Prod.fst).getLastD "")
        (concatAll (ds.filterMap Prod.snd))] (TokenUsage.mk 0 0 0 0) FinishReason.unknown := by
    show (runChunks initState (startChunk id :: ds.map fragChunk)).1 = _
    rw [runChunks_cons, startChunk_step]
    show (runChunks (StreamState.mk "" [ToolCall.mk id "" ""] (TokenUsage.mk 0 0 0 0)
      FinishReason.unknown) (ds.map fragChunk)).1 = _
    rw [runFrag_state]
    rfl
  have hshape : eofEvents (chunksFor id ds) =
      ProviderEvent.contentStart :: ((runChunks initState (chunksFor id ds)).2 ++
        epilogue (finalState (chunksFor id ds))) := rfl
  have hbody : (runChunks initState (chunksFor id ds)).2 =
      [ProviderEvent.toolUseStart (ToolCall.mk id "" "")] ++
        (runChunks (StreamState.mk "" [ToolCall.mk id "" ""] (TokenUsage.mk 0 0 0 0)
          FinishReason.unknown) (ds.map fragChunk)).2 := by
    show (runChunks initState (startChunk id :: ds.map fragChunk)).2 = _
    rw [runChunks_cons, startChunk_step]
  have hkind := (runChunks_shape (chunksFor id ds) initState).2.1
  refine ⟨?_, ?_, ?_⟩
  · rw [hshape, List.filterMap_cons]
    show ((runChunks initState (chunksFor id ds)).2 ++
      epilogue (finalState (chunksFor id ds))).filterMap completeToolCalls = _
    rw [List.filterMap_append,
      filterMap_eq_nil_of_kind hkind completeToolCalls_chunkEvent, List.nil_append]
    unfold epilogue
    rw [List.filterMap_append, filterMap_map_stop_eq_nil completeToolCalls (fun _ => rfl)]
    rw [hstate]
    rfl
  · rw [hshape, List.filterMap_cons]
    show ((runChunks initState (chunksFor id ds)).2 ++
      epilogue (finalState (chunksFor id ds))).filterMap stopCall = _
    rw [List.filterMap_append,
      filterMap_eq_nil_of_kind hkind stopCall_chunkEvent, List.nil_append]
    unfold epilogue
    rw [List.filterMap_append, filterMap_stopCall_map_stop, hstate]
    simp [stopCall]
  · rw [hshape, List.filterMap_cons]
    show ((runChunks initState (chunksFor id ds)).2 ++
      epilogue (finalState (chunksFor id ds))).filterMap deltaInput = _
    rw [List.filterMap_append, hbody, List.filterMap_append]
    rw [runFrag_events]
    have hep : (epilogue (finalState (chunksFor id ds))).filterMap deltaInput = [] := by
      unfold epilogue
      rw [List.filterMap_append, filterMap_map_stop_eq_nil deltaInput (fun _ => rfl)]
      rfl
    rw [hep, List.append_nil]
    rfl

/-- Claim C4: for a backend API error with status 429 and no parsed
retry-after value, the retry decision at every attempt index is retry
with delay 1000 times 2 to the attempt index (1000 at index 0 and 8000
at index 3), never a fatal error; when a retry-after duration is
supplied, its millisecond value is used verbatim as the delay. -/
theorem retry_429_policy :
    (∀ a : Nat, shouldRetry a (GoError.apiError 429 none) = (true, 1000 * 2 ^ a, none))
    ∧ (∀ (a : Nat) (d : Int), shouldRetry a (GoError.apiError 429 (some d)) = (true, d, none))
    ∧ shouldRetry 0 (GoError.apiError 429 none) = (true, 1000, none)
    ∧ shouldRetry 3 (GoError.apiError 429 none) = (true, 8000, none) := by
  refine ⟨fun a => rfl, fun a d => rfl, ?_, ?_⟩
  · show (true, (1000 : Int) * 2 ^ 0, (none : Option GoError)) = (true, 1000, none)
    norm_num
  · show (true, (1000 : Int) * 2 ^ 3, (none : Option GoError)) = (true, 8000, none)
    norm_num

/-- Claim C5: for a backend API error with status in the interval from
500 inclusive to 600 exclusive, the retry decision is retry with delay
1000 times 2 to the attempt index while the attempt index is below
maxRetries - 1 (maxRetries = 8); at maxRetries - 1 or beyond it is
no-retry together with a fatal error wrapping the original error. -/
theorem retry_5xx_policy (a : Nat) (s : Int) (h1 : 500 ≤ s) (h2 : s < 600) :
    (a < maxRetries - 1 → shouldRetry a (GoError.apiError s none) = (true, 1000 * 2 ^ a, none))
    ∧ (maxRetries - 1 ≤ a → shouldRetry a (GoError.apiError s none) =
        (false, 0, some (GoError.wrapped "max retries reached" (GoError.apiError s none)))) := by
  have hs : ¬ (s = 429) := by omega
  constructor
  · intro h
    have hb : ¬ (maxRetries - 1 ≤ a) := by omega
    simp [shouldRetry, asAPIError, hs, h1, h2, hb]
  · intro h
    simp [shouldRetry, asAPIError, hs, h1, h2, h]

theorem retry_5xx_policy_witness :
    shouldRetry 7 (GoError.apiError 500 none) =
      (false, 0, some (GoError.wrapped "max retries reached" (GoError.apiError 500 none)))
    ∧ shouldRetry 2 (GoError.apiError 500 none) = (true, 4000, none) := by
  constructor
  · exact (retry_5xx_policy 7 500 (by norm_num) (by norm_num)).2 (by norm_num [maxRetries])
  · have h := (retry_5xx_policy 2 500 (by norm_num) (by norm_num)).1 (by norm_num [maxRetries])
    rw [h]
    norm_num

/-- Claim C6: a message with zero content parts never reaches the backend
conversion: every message surviving the filter has at least one part, the
filter is idempotent, the relative order of the remaining messages is
preserved (sublist), and both SendMessages and StreamResponse pass
exactly the filtered list to the client capability. -/
theorem clean_messages_filter {α : Type} (msgs : List Message) (f g : List Message → α) :
    ((cleanMessages msgs).all (fun m => m.parts.length != 0) = true)
    ∧ cleanMessages (cleanMessages msgs) = cleanMessages msgs
    ∧ (cleanMessages msgs).Sublist msgs
    ∧ sendMessages f msgs = f (cleanMessages msgs)
    ∧ streamResponse g msgs = g (cleanMessages msgs) := by
  refine ⟨?_, ?_, ?_, rfl, rfl⟩
  · rw [List.all_eq_true]
    intro m hm
    have : m ∈ msgs.filter (fun m => m.parts.length != 0) := hm
    exact (List.mem_filter.mp this).2
  · show (msgs.filter (fun m => m.parts.length != 0)).filter (fun m => m.parts.length != 0) = _
    rw [List.filter_filter]
    simp only [Bool.and_self]
    rfl
  · exact List.filter_sublist msgs

/-- Claim C7: when the transport succeeds, a completion with zero
choices makes send return an error and never a response; otherwise
absent message content is normalized to the empty string, and the
backend finish-reason string maps total-functionally to the FinishReason
enum, with every string outside the four recognized values (including
the empty string) mapping to unknown and never producing an error. -/
theorem send_success_normalization (u : CompletionUsage) (tcs : List CompletionToolCall)
    (fr : String) (rest : List CompletionChoice) (c : Completion) :
    send (fun _ => Except.ok (Completion.mk [] u)) =
      Except.error (GoError.other "no choices returned")
    ∧ send (fun _ => Except.ok c) = sendAssemble c
    ∧ sendAssemble (Completion.mk (CompletionChoice.mk (CompletionMessage.mk none tcs) fr :: rest) u) =
        Except.ok (ProviderResponse.mk ""
          (toolCallsOf (Completion.mk (CompletionChoice.mk (CompletionMessage.mk none tcs) fr :: rest) u))
          (TokenUsage.mk u.promptTokens u.completionTokens 0 0)
          (finishReason fr))
    ∧ (∀ s : String, finishReason s = FinishReason.unknown ∨
        s ∈ ["stop", "length", "tool_calls", "content_filter"])
    ∧ finishReason "" = FinishReason.unknown := by
  refine ⟨rfl, rfl, rfl, ?_, rfl⟩
  intro s
  unfold finishReason
  split <;> simp_all

/-- Claim C10: NewProvider with the mock identifier panics instead of
returning a provider or an error, while every identifier outside the
three known constants yields an error naming that identifier (the Go
code returns it with a nil provider, modelled by the err constructor
carrying no provider value). -/
theorem new_provider_dispatch (s : String) :
    NewProvider ProviderMock = NewProviderResult.panicked "not implemented"
    ∧ (s ∉ [ProviderOpenAI, ProviderInfineon, ProviderMock] →
        NewProvider s = NewProviderResult.err ("provider not supported: " ++ s)) := by
  constructor
  · rfl
  · intro h
    simp only [List.mem_cons, List.not_mem_nil, or_false, not_or] at h
    obtain ⟨h1, h2, h3⟩ := h
    simp [NewProvider, h1, h2, h3]

theorem new_provider_dispatch_witness :
    NewProvider "__mock" = NewProviderResult.panicked "not implemented"
    ∧ NewProvider "azure" = NewProviderResult.err ("provider not supported: azure") := by
  have h := new_provider_dispatch "azure"
  refine ⟨h.1, ?_⟩
  have h2 := h.2 (by decide)
  rw [h2]
  rfl

theorem length_foldl_preserve {α β : Type} (f : List α → β → List α)
    (h : ∀ acc b, (f acc b).length = acc.length) :
    ∀ (l : List β) (acc : List α), (l.foldl f acc).length = acc.length := by
  intro l
  induction l with
  | nil => intro acc; rfl
  | cons b rest ih => intro acc; rw [List.foldl_cons, ih, h]

/-- Claim C2 (code bug evidence): the conversions never change the list
length, so a tool call whose input fails to parse, and a tool whose
schema extraction fails, are NOT dropped from the backend list: the
pre-allocated zero-valued placeholder stays at their index, while every
other item is still converted and the conversion never aborts. Shown in
general by the length equations and concretely on a two-element input
whose first element fails. -/
theorem convert_drop_leaves_placeholder :
    (∀ (reser : String → Option String) (calls : List ToolCall),
      (convertToolCalls reser calls).length = calls.length)
    ∧ (∀ ts : List BaseTool, (convertTools ts).length = ts.length)
    ∧ convertToolCalls reserEx
        [ToolCall.mk "call1" "lookup" "badjson", ToolCall.mk "call2" "search" "objA"] =
        [BackendToolCall.mk "" "" "" "",
         BackendToolCall.mk "call2" "function" "search" "objA"]
    ∧ convertTools [BaseTool.mk "t1" "d1" none, BaseTool.mk "t2" "d2" (some "objA")] =
        [BackendTool.mk "" "" "" "",
         BackendTool.mk "function" "t2" "d2" "objA"] := by
  refine ⟨?_, ?_, by decide, by decide⟩
  · intro reser calls
    unfold convertToolCalls
    rw [length_foldl_preserve]
    · exact List.length_replicate _ _
    · intro acc p
      cases reser p.2.input
      · rfl
      · exact List.length_set acc _ _
  · intro ts
    unfold convertTools
    split
    · simp_all
    · rw [length_foldl_preserve]
      · exact List.length_replicate _ _
      · intro acc p
        cases p.2.jsonSchema
        · rfl
        · exact List.length_set acc _ _

end Cli4ifx
